import Mathlib

/-!
Shallow embedding of `djangocms_4_migration/management/commands/migration_cleanup.py`.

The script walks every `Page` row, treats pages without any `PageContent`
as orphaned (fixing references to them, then deleting them via raw SQL),
and removes `PageContent` rows that have no `Version`, together with their
placeholders.  Deletes guarded by `try/except ProtectedError` in the source
are modelled as fallible operations raising `Exc.protectedError`, caught by
`catchProtected`.  Django's `QuerySet.get()` raising `DoesNotExist` /
`MultipleObjectsReturned` is modelled by the corresponding `Exc` values.

Rows carry a `prot` flag: `prot = true` models a row whose deletion raises
`ProtectedError` (a protecting foreign key points at it).  Querysets are
lists; a queryset iterated in a `for` loop is evaluated once (a snapshot),
matching Django's result-cache semantics.
-/

namespace MigrationCleanup

/-- A `cms_page` row: primary key and tree-node id.  `prot` models whether
deleting the row raises `ProtectedError`. -/
structure Page where
  id : Nat
  node_id : Nat
  prot : Bool
deriving DecidableEq, Repr

/-- A `PageContent` row.  `hidden` models a row that the default manager of
the CMS would filter out (e.g. by publication state) but that
`_base_manager` still returns. -/
structure PageContent where
  id : Nat
  page_id : Nat
  hidden : Bool
  prot : Bool
deriving DecidableEq, Repr

/-- A `cms_pageurl` row. -/
structure PageUrl where
  id : Nat
  page_id : Nat
deriving DecidableEq, Repr

/-- A `Placeholder` row, attached to a content object through a generic
relation (`content_type` + `object_id`). -/
structure Placeholder where
  id : Nat
  object_id : Nat
  content_type : Nat
  prot : Bool
deriving DecidableEq, Repr

/-- A `djangocms_versioning` `Version` row, referencing a content object
through a generic relation. -/
structure Version where
  id : Nat
  object_id : Nat
  content_type : Nat
deriving DecidableEq, Repr

/-- A foreign-key row in some model related to `Page`: `page_ref` is the
value of the foreign-key column pointing at `cms_page`.  `prot` models a
row whose ORM deletion raises `ProtectedError` (a protecting foreign key
points at it); it matters only for the one-to-one reverse-relation rows,
whose queryset delete is the one ORM delete the source leaves unguarded. -/
structure FkRow where
  id : Nat
  page_ref : Nat
  prot : Bool
deriving DecidableEq, Repr

/-- A row of a model with a many-to-many relation to `Page`: `page_refs`
is the set of pages it is related to. -/
structure M2MRow where
  id : Nat
  page_refs : List Nat
deriving DecidableEq, Repr

/-- One field of `Page._meta.get_fields()`: the cardinality flags, the
`auto_created` / `concrete` flags the source filters on, and whether the
related model is `PageUrl`.  `fkRows` holds the related rows for
one-to-one / one-to-many relations, `m2mRows` for many-to-many ones. -/
structure ReverseRel where
  one_to_one : Bool
  one_to_many : Bool
  many_to_many : Bool
  auto_created : Bool
  concrete_field : Bool
  relatedIsPageUrl : Bool
  fkRows : List FkRow
  m2mRows : List M2MRow
deriving DecidableEq, Repr

/-- One relation of `page._meta._relation_tree`: `isExactPageField` models
`type(r) == PageField` (an exact type test, excluding subclasses). -/
structure PageFieldRel where
  isExactPageField : Bool
  rows : List FkRow
deriving DecidableEq, Repr

/-- The database state the command reads and mutates.  `pageContentCT` is
the id of `ContentType.objects.get(app_label='cms', model='pagecontent')`. -/
structure Db where
  pages : List Page
  pageContents : List PageContent
  pageUrls : List PageUrl
  placeholders : List Placeholder
  versions : List Version
  reverseRels : List ReverseRel
  pageFieldRels : List PageFieldRel
  pageContentCT : Nat
deriving DecidableEq, Repr

/-- The `stats` dictionary accumulated by `Command.handle`. -/
structure Stats where
  page_count : Nat
  page_deleted : Nat
  pagecontents_count : Nat
  pagecontents_deleted : Nat
deriving DecidableEq, Repr

/-- Exceptions the script can raise: `ProtectedError` from guarded deletes,
`DoesNotExist` / `MultipleObjectsReturned` from `QuerySet.get()`. -/
inductive Exc where
  | protectedError
  | doesNotExist
  | multipleObjectsReturned
deriving DecidableEq, Repr

/-- Models `except ProtectedError: logger.error(...)` — recovers with the state
reached inside the `try` block when the error is `ProtectedError`, and lets
every other exception propagate. -/
def catchProtected (x : Except Exc Db) (onErr : Db) : Except Exc Db :=
  match x with
  | .error .protectedError => .ok onErr
  | x => x

/-- A single row delete that raises `ProtectedError` when the row is
protected and otherwise returns the state with the row removed. -/
def tryDeleteRow (raises : Bool) (afterDelete : Db) : Except Exc Db :=
  if raises then .error .protectedError else .ok afterDelete

/-- Embeds `Page.objects.filter(node_id=page.node_id).exclude(id=page.id).get()`:
the unique sibling page sharing the node; `DoesNotExist` on zero matches,
`MultipleObjectsReturned` on more than one. -/
def _get_replacement_page (page : Page) (db : Db) : Except Exc Page :=
  match db.pages.filter (fun q => q.node_id == page.node_id && q.id != page.id) with
  | [] => .error .doesNotExist
  | [q] => .ok q
  | _ :: _ :: _ => .error .multipleObjectsReturned

/-- The filter building `relations` in `_fix_page_references`:
`(f.one_to_many or f.one_to_one or f.many_to_many) and f.auto_created and
not f.concrete`. -/
def relSelected (rel : ReverseRel) : Bool :=
  (rel.one_to_many || rel.one_to_one || rel.many_to_many)
    && rel.auto_created && !rel.concrete_field

/-- Embeds `m2m_rel.remove(page); m2m_rel.add(replacement_page)` on one related
object. -/
def m2mRepoint (pageId replId : Nat) (row : M2MRow) : M2MRow :=
  if pageId ∈ row.page_refs then
    { row with page_refs :=
        if replId ∈ row.page_refs.filter (fun r => r != pageId) then
          row.page_refs.filter (fun r => r != pageId)
        else row.page_refs.filter (fun r => r != pageId) ++ [replId] }
  else row

/-- The body of the `for rel in relations` loop of `_fix_page_references`:
skip `PageUrl`, delete one-to-one related objects, repoint many-to-many
related objects, update remaining (one-to-many) foreign keys. -/
def fixRel (pageId replId : Nat) (rel : ReverseRel) : ReverseRel :=
  if rel.relatedIsPageUrl then rel
  else if rel.one_to_one then
    { rel with fkRows := rel.fkRows.filter (fun row => row.page_ref != pageId) }
  else if rel.many_to_many then
    { rel with m2mRows := rel.m2mRows.map (m2mRepoint pageId replId) }
  else
    { rel with fkRows := rel.fkRows.map (fun row =>
        if row.page_ref == pageId then { row with page_ref := replId } else row) }

/-- Tells whether the one-to-one branch's queryset delete
(`model.objects.filter(**{rel.field.name: page}).delete()`) raises
`ProtectedError`: some row it would delete is protected.  This delete is
the one ORM delete of the command standing outside every
`try/except ProtectedError`. -/
def o2oDeleteRaises (pageId : Nat) (rel : ReverseRel) : Bool :=
  rel.one_to_one && !rel.relatedIsPageUrl &&
    (rel.fkRows.filter (fun row => row.page_ref == pageId)).any (fun row => row.prot)

/-- Embeds `_fix_page_references(page)`: looks up the replacement page and applies
`fixRel` to every relation passing `relSelected`.  When the unguarded
one-to-one delete of some selected relation hits a protected row, the
raised `ProtectedError` propagates uncaught.  (The embedding raises before
mutating; the source raises at the first offending relation of the loop —
indistinguishable here, since an abort discards the state.) -/
def _fix_page_references (page : Page) (db : Db) : Except Exc Db :=
  (_get_replacement_page page db).bind (fun repl =>
    if (db.reverseRels.filter relSelected).any (o2oDeleteRaises page.id) then
      .error .protectedError
    else
      .ok { db with reverseRels := db.reverseRels.map (fun rel =>
          if relSelected rel then fixRel page.id repl.id rel else rel) })

/-- Embeds `_fix_pagefield_references(page)`: looks up the replacement page again
and, for every relation-tree entry whose type is exactly `PageField`,
updates rows referencing the page to reference the replacement. -/
def _fix_pagefield_references (page : Page) (db : Db) : Except Exc Db :=
  (_get_replacement_page page db).map (fun repl =>
    { db with pageFieldRels := db.pageFieldRels.map (fun rel =>
        if rel.isExactPageField then
          { rel with rows := rel.rows.map (fun row =>
              if row.page_ref == page.id then { row with page_ref := repl.id } else row) }
        else rel) })

/-- Embeds `_delete_page(page)`: raw SQL deletes of the page's `cms_pageurl` rows
and then of the `cms_page` row, inside one `try/except ProtectedError`.
The url delete runs first, so it survives even when the page delete is
protected. -/
def _delete_page (page : Page) (db : Db) : Except Exc Db :=
  let db1 := { db with pageUrls := db.pageUrls.filter (fun u => u.page_id != page.id) }
  catchProtected
    (tryDeleteRow page.prot
      { db1 with pages := db1.pages.filter (fun p => p.id != page.id) })
    db1

/-- One `placeholder.delete()` guarded by `try/except ProtectedError`. -/
def deletePlaceholder (ph : Placeholder) (db : Db) : Except Exc Db :=
  catchProtected
    (tryDeleteRow ph.prot
      { db with placeholders := db.placeholders.filter (fun q => q.id != ph.id) })
    db

/-- Embeds `_delete_page_content_placeholders`: filters the placeholders attached
to the content row (generic relation match) and deletes each in turn. -/
def _delete_page_content_placeholders (ct : Nat) (pc : PageContent) (db : Db) :
    Except Exc Db :=
  let phs := db.placeholders.filter
    (fun ph => ph.object_id == pc.id && ph.content_type == ct)
  phs.foldlM (fun d ph => deletePlaceholder ph d) db

/-- Embeds `_delete_page_content`: `page_content.delete()` guarded by
`try/except ProtectedError`. -/
def _delete_page_content (pc : PageContent) (db : Db) : Except Exc Db :=
  catchProtected
    (tryDeleteRow pc.prot
      { db with pageContents := db.pageContents.filter (fun c => c.id != pc.id) })
    db

/-- Embeds `_get_page_contents(page)`: `PageContent._base_manager.filter(page=page)`
— the base manager, so no default-manager filtering applies. -/
def _get_page_contents (page : Page) (db : Db) : List PageContent :=
  db.pageContents.filter (fun c => c.page_id == page.id)

/-- What `PageContent.objects.filter(page=page)` would return had the code
used the default manager: rows the default manager hides are dropped.
(The script does not use this; it exists to compare with
`_get_page_contents`.) -/
def defaultManagerContents (page : Page) (db : Db) : List PageContent :=
  db.pageContents.filter (fun c => c.page_id == page.id && !c.hidden)

/-- The body of the inner `for page_content in page_content_list` loop:
when the content has no `Version` (count = 0), delete its placeholders and
the content row and bump `pagecontents_deleted`; otherwise do nothing. -/
def processContent (ct : Nat) (acc : Db × Stats) (pc : PageContent) :
    Except Exc (Db × Stats) :=
  if (acc.1.versions.filter
      (fun v => v.object_id == pc.id && v.content_type == ct)).length == 0 then
    (_delete_page_content_placeholders ct pc acc.1).bind (fun db1 =>
      (_delete_page_content pc db1).map (fun db2 =>
        (db2, { acc.2 with pagecontents_deleted := acc.2.pagecontents_deleted + 1 })))
  else .ok acc

/-- The body of the outer `for page in page_list` loop: orphan branch when
the page has no contents (fix references, delete page, bump
`page_deleted`), otherwise count the contents and walk them.  The content
queryset is re-evaluated by `exists()`, `count()` and the `for` loop, but
the state does not change in between, matching the source. -/
def processPage (ct : Nat) (acc : Db × Stats) (page : Page) :
    Except Exc (Db × Stats) :=
  if (_get_page_contents page acc.1).isEmpty then
    (_fix_page_references page acc.1).bind (fun db1 =>
      (_fix_pagefield_references page db1).bind (fun db2 =>
        (_delete_page page db2).map (fun db3 =>
          (db3, { acc.2 with page_deleted := acc.2.page_deleted + 1 }))))
  else
    (_get_page_contents page acc.1).foldlM (processContent ct)
      (acc.1, { acc.2 with pagecontents_count :=
        acc.2.pagecontents_count + (_get_page_contents page acc.1).length })

/-- Embeds `Command.handle`: initial stats (with `page_count` the number of pages
at the start), then the loop over the initial page queryset (evaluated
once, before any deletion happens); the final stats record is the one
logged at the end of the run. -/
def handle (db : Db) : Except Exc (Db × Stats) :=
  db.pages.foldlM (processPage db.pageContentCT)
    (db,
      { page_count := db.pages.length
        page_deleted := 0
        pagecontents_count := 0
        pagecontents_deleted := 0 })

/-! ### Concrete databases (used to instantiate the theorems below) -/

/-- Two pages on one node; the second carries one content row.  The first
page is an orphan and gets deleted; the second survives. -/
def dbA : Db := ⟨[⟨1, 1, false⟩, ⟨2, 1, false⟩], [⟨10, 2, false, false⟩], [], [], [], [], [], 5⟩

/-- The state `handle dbA` reaches: the orphan page and the versionless
content row are gone. -/
def dbAres : Db := ⟨[⟨2, 1, false⟩], [], [], [], [], [], [], 5⟩

/-- A single orphan page with no sibling on its node: the replacement
lookup raises `DoesNotExist` and the run aborts. -/
def dbB : Db := ⟨[⟨1, 1, false⟩], [], [], [], [], [], [], 5⟩

/-- One page whose content row has a `Version`, plus a placeholder
attached to that content: the content branch leaves everything alone. -/
def dbV : Db :=
  ⟨[⟨1, 1, false⟩], [⟨10, 1, false, false⟩], [], [⟨20, 10, 7, false⟩], [⟨1, 10, 7⟩], [], [], 7⟩

/-- A run exercising every table: an orphan page with a url row, a
versionless content with a placeholder, and a content protected by a
`Version`. -/
def dbC : Db :=
  ⟨[⟨1, 1, false⟩, ⟨2, 1, false⟩], [⟨10, 2, false, false⟩, ⟨11, 2, false, false⟩],
   [⟨30, 1⟩], [⟨20, 10, 7, false⟩], [⟨1, 11, 7⟩], [], [], 7⟩

/-- The state `handle dbC` reaches: page 1, its url, content 10 and its
placeholder are deleted; the versioned content 11 and the version row
survive. -/
def dbCres : Db :=
  ⟨[⟨2, 1, false⟩], [⟨11, 2, false, false⟩], [], [], [⟨1, 11, 7⟩], [], [], 7⟩

/-- An auto-created, non-concrete one-to-many reverse relation with one
row pointing at page 5. -/
def relOneToMany : ReverseRel := ⟨false, true, false, true, false, false, [⟨1, 5, false⟩], []⟩

/-- A reverse relation whose related model is `PageUrl`: skipped. -/
def relUrl : ReverseRel := ⟨false, true, false, true, false, true, [⟨1, 5, false⟩], []⟩

/-- Two pages on one node, a `PageField` relation row pointing at page 5,
and one url row per page. -/
def dbD : Db :=
  ⟨[⟨5, 1, false⟩, ⟨6, 1, false⟩], [], [⟨30, 5⟩, ⟨31, 6⟩], [], [], [], [⟨true, [⟨1, 5, false⟩]⟩], 7⟩

/-- The state `_delete_page` reaches from `dbD` for page 5. -/
def dbDdel : Db :=
  ⟨[⟨6, 1, false⟩], [], [⟨31, 6⟩], [], [], [], [⟨true, [⟨1, 5, false⟩]⟩], 7⟩

/-- An orphan page whose one-to-one reverse relation holds a protected
row: the unguarded queryset delete raises `ProtectedError`, which no
`except` clause catches, and the run aborts with it. -/
def dbO2O : Db :=
  ⟨[⟨1, 1, false⟩, ⟨2, 1, false⟩], [], [], [], [],
   [⟨true, false, false, true, false, false, [⟨40, 1, true⟩], []⟩], [], 7⟩

/-- A protected orphan page (its delete raises `ProtectedError`) and a
protected versionless content row: nothing is actually removed, yet the
counters report deletions. -/
def dbP : Db := ⟨[⟨1, 1, true⟩, ⟨2, 1, false⟩], [⟨10, 2, false, true⟩], [], [], [], [], [], 7⟩

/-- A page whose only content row is hidden from the default manager. -/
def dbH : Db := ⟨[⟨1, 1, false⟩, ⟨2, 1, false⟩], [⟨10, 2, true, false⟩], [], [], [], [], [], 7⟩

/-- The state `handle dbH` reaches: the orphan page 1 is gone, page 2
survives (its hidden content made it non-orphaned), and its versionless
content was cleaned out. -/
def dbHres : Db := ⟨[⟨2, 1, false⟩], [], [], [], [], [], [], 7⟩

/-! ### Basic lemmas about the `Except` plumbing -/

theorem ok_bind {α β : Type} (a : α) (g : α → Except Exc β) :
    (Except.ok a >>= g) = g a := rfl

theorem error_bind {α β : Type} (e : Exc) (g : α → Except Exc β) :
    ((Except.error e : Except Exc α) >>= g) = .error e := rfl

theorem bind_ok_inv {α β : Type} {x : Except Exc α} {g : α → Except Exc β} {b : β}
    (h : x.bind g = .ok b) : ∃ a, x = .ok a ∧ g a = .ok b := by
  cases x with
  | error e => simp [Except.bind] at h
  | ok a => exact ⟨a, rfl, h⟩

theorem map_ok_inv {α β : Type} {x : Except Exc α} {f : α → β} {b : β}
    (h : x.map f = .ok b) : ∃ a, x = .ok a ∧ f a = b := by
  cases x with
  | error e => simp [Except.map] at h
  | ok a =>
    refine ⟨a, rfl, ?_⟩
    simpa [Except.map] using h

theorem map_error_inv {α β : Type} {x : Except Exc α} {f : α → β} {e : Exc}
    (h : x.map f = .error e) : x = .error e := by
  cases x with
  | error e' => simpa [Except.map] using h
  | ok a => simp [Except.map] at h

/-- A sublist that is also a superset of a duplicate-free list equals it. -/
theorem sublist_eq_of_superset {α : Type} {l' l : List α} (hs : l'.Sublist l)
    (hsup : ∀ a ∈ l, a ∈ l') (hn : l.Nodup) : l' = l :=
  hs.eq_of_length_le (List.subperm_of_subset hn hsup).length_le

/-- When the mapped list is duplicate-free, distinct members map to
distinct values. -/
theorem map_nodup_ne {α β : Type} {f : α → β} {l : List α}
    (hn : (l.map f).Nodup) {a b : α} (ha : a ∈ l) (hb : b ∈ l) (hne : a ≠ b) :
    f a ≠ f b :=
  fun h => hne (List.inj_on_of_nodup_map hn ha hb h)

/-! ### `_get_replacement_page` -/

theorem replacement_ok {p r : Page} {db : Db}
    (h : _get_replacement_page p db = .ok r) :
    r ∈ db.pages ∧ r.node_id = p.node_id ∧ r.id ≠ p.id := by
  unfold _get_replacement_page at h
  rcases hl : db.pages.filter (fun q => q.node_id == p.node_id && q.id != p.id)
    with _ | ⟨a, _ | ⟨b, t⟩⟩ <;> rw [hl] at h
  · simp at h
  · have har : a = r := by simpa using h
    subst har
    have ha : a ∈ db.pages.filter (fun q => q.node_id == p.node_id && q.id != p.id) := by
      rw [hl]; exact List.mem_singleton_self a
    have := List.mem_filter.mp ha
    simpa using this
  · simp at h

theorem replacement_unique {p r q : Page} {db : Db}
    (h : _get_replacement_page p db = .ok r) (hq : q ∈ db.pages)
    (h1 : q.node_id = p.node_id) (h2 : q.id ≠ p.id) : q = r := by
  unfold _get_replacement_page at h
  rcases hl : db.pages.filter (fun x => x.node_id == p.node_id && x.id != p.id)
    with _ | ⟨a, _ | ⟨b, t⟩⟩ <;> rw [hl] at h
  · simp at h
  · have har : a = r := by simpa using h
    have hqf : q ∈ db.pages.filter (fun x => x.node_id == p.node_id && x.id != p.id) :=
      List.mem_filter.mpr ⟨hq, by simp [h1, h2]⟩
    rw [hl] at hqf
    simpa [har] using hqf
  · simp at h

theorem replacement_error {p : Page} {db : Db} {e : Exc}
    (h : _get_replacement_page p db = .error e) :
    e = .doesNotExist ∨ e = .multipleObjectsReturned := by
  unfold _get_replacement_page at h
  rcases hl : db.pages.filter (fun q => q.node_id == p.node_id && q.id != p.id)
    with _ | ⟨a, _ | ⟨b, t⟩⟩ <;> rw [hl] at h
  · exact Or.inl (by simpa using h.symm)
  · simp at h
  · exact Or.inr (by simpa using h.symm)

theorem replacement_of_no_sibling {p : Page} {db : Db}
    (h : db.pages.filter (fun q => q.node_id == p.node_id && q.id != p.id) = []) :
    _get_replacement_page p db = .error .doesNotExist := by
  unfold _get_replacement_page
  rw [h]

theorem replacement_of_many_siblings {p : Page} {db : Db}
    (h : 2 ≤ (db.pages.filter (fun q => q.node_id == p.node_id && q.id != p.id)).length) :
    _get_replacement_page p db = .error .multipleObjectsReturned := by
  unfold _get_replacement_page
  rcases hl : db.pages.filter (fun q => q.node_id == p.node_id && q.id != p.id)
    with _ | ⟨a, _ | ⟨b, t⟩⟩ <;> (try rw [hl] at h ⊢) <;> first | rfl | simp at h

/-! ### The guarded delete operations -/

theorem _delete_page_eq_prot {page : Page} (db : Db) (h : page.prot = true) :
    _delete_page page db =
      .ok { db with pageUrls := db.pageUrls.filter (fun u => u.page_id != page.id) } := by
  simp [_delete_page, tryDeleteRow, catchProtected, h]

theorem _delete_page_eq_free {page : Page} (db : Db) (h : page.prot = false) :
    _delete_page page db =
      .ok { db with
        pageUrls := db.pageUrls.filter (fun u => u.page_id != page.id)
        pages := db.pages.filter (fun p => p.id != page.id) } := by
  simp [_delete_page, tryDeleteRow, catchProtected, h]

theorem deletePlaceholder_eq_prot {ph : Placeholder} (db : Db) (h : ph.prot = true) :
    deletePlaceholder ph db = .ok db := by
  simp [deletePlaceholder, tryDeleteRow, catchProtected, h]

theorem deletePlaceholder_eq_free {ph : Placeholder} (db : Db) (h : ph.prot = false) :
    deletePlaceholder ph db =
      .ok { db with placeholders := db.placeholders.filter (fun q => q.id != ph.id) } := by
  simp [deletePlaceholder, tryDeleteRow, catchProtected, h]

theorem _delete_page_content_eq_prot {pc : PageContent} (db : Db) (h : pc.prot = true) :
    _delete_page_content pc db = .ok db := by
  simp [_delete_page_content, tryDeleteRow, catchProtected, h]

theorem _delete_page_content_eq_free {pc : PageContent} (db : Db) (h : pc.prot = false) :
    _delete_page_content pc db =
      .ok { db with pageContents := db.pageContents.filter (fun c => c.id != pc.id) } := by
  simp [_delete_page_content, tryDeleteRow, catchProtected, h]

theorem ok_dot_bind {α β : Type} (a : α) (g : α → Except Exc β) :
    (Except.ok a : Except Exc α).bind g = g a := rfl

theorem ok_dot_map {α β : Type} (a : α) (f : α → β) :
    (Except.ok a : Except Exc α).map f = .ok (f a) := rfl

/-! ### The placeholder deletion loop -/

theorem placeholderFold_spec (l : List Placeholder) :
    ∀ db : Db,
    ∃ db', l.foldlM (fun d ph => deletePlaceholder ph d) db = .ok db' ∧
      db'.pages = db.pages ∧ db'.pageContents = db.pageContents ∧
      db'.pageUrls = db.pageUrls ∧ db'.versions = db.versions ∧
      db'.reverseRels = db.reverseRels ∧ db'.pageFieldRels = db.pageFieldRels ∧
      db'.pageContentCT = db.pageContentCT ∧
      db'.placeholders.Sublist db.placeholders ∧
      (∀ ph ∈ l, ph.prot = false → ∀ q ∈ db'.placeholders, q.id ≠ ph.id) := by
  induction l with
  | nil =>
    intro db
    exact ⟨db, rfl, rfl, rfl, rfl, rfl, rfl, rfl, rfl, List.Sublist.refl _, by simp⟩
  | cons ph t ih =>
    intro db
    cases hpr : ph.prot with
    | true =>
      obtain ⟨db', hfold, h1, h2, h3, h4, h5, h6, h7, h8, h9⟩ := ih db
      refine ⟨db', ?_, h1, h2, h3, h4, h5, h6, h7, h8, ?_⟩
      · rw [List.foldlM_cons, deletePlaceholder_eq_prot db hpr, ok_bind]
        exact hfold
      · intro x hx hxprot q hq
        rcases List.mem_cons.mp hx with he | ht
        · subst he; rw [hxprot] at hpr; cases hpr
        · exact h9 x ht hxprot q hq
    | false =>
      obtain ⟨db', hfold, h1, h2, h3, h4, h5, h6, h7, h8, h9⟩ :=
        ih { db with placeholders := db.placeholders.filter (fun q => q.id != ph.id) }
      refine ⟨db', ?_, h1, h2, h3, h4, h5, h6, h7,
        h8.trans (List.filter_sublist _), ?_⟩
      · rw [List.foldlM_cons, deletePlaceholder_eq_free db hpr, ok_bind]
        exact hfold
      · intro x hx hxprot q hq
        rcases List.mem_cons.mp hx with he | ht
        · subst he
          have hq' := h8.subset hq
          have := (List.mem_filter.mp hq').2
          simpa using this
        · exact h9 x ht hxprot q hq

theorem _delete_page_content_placeholders_spec (ct : Nat) (pc : PageContent) (db : Db) :
    ∃ db', _delete_page_content_placeholders ct pc db = .ok db' ∧
      db'.pages = db.pages ∧ db'.pageContents = db.pageContents ∧
      db'.pageUrls = db.pageUrls ∧ db'.versions = db.versions ∧
      db'.reverseRels = db.reverseRels ∧ db'.pageFieldRels = db.pageFieldRels ∧
      db'.pageContentCT = db.pageContentCT ∧
      db'.placeholders.Sublist db.placeholders ∧
      (∀ ph ∈ db.placeholders, ph.object_id = pc.id → ph.content_type = ct →
        ph.prot = false → ∀ q ∈ db'.placeholders, q.id ≠ ph.id) := by
  obtain ⟨db', hfold, h1, h2, h3, h4, h5, h6, h7, h8, h9⟩ :=
    placeholderFold_spec
      (db.placeholders.filter (fun ph => ph.object_id == pc.id && ph.content_type == ct)) db
  refine ⟨db', hfold, h1, h2, h3, h4, h5, h6, h7, h8, ?_⟩
  intro ph hmem ho hc hp
  exact h9 ph (List.mem_filter.mpr ⟨hmem, by simp [ho, hc]⟩) hp

/-! ### One step of the content loop -/

theorem processContent_spec (ct : Nat) (db : Db) (s : Stats) (pc : PageContent) :
    ∃ db' s', processContent ct (db, s) pc = .ok (db', s') ∧
      db'.pages = db.pages ∧ db'.pageUrls = db.pageUrls ∧ db'.versions = db.versions ∧
      db'.reverseRels = db.reverseRels ∧ db'.pageFieldRels = db.pageFieldRels ∧
      db'.pageContentCT = db.pageContentCT ∧
      db'.pageContents.Sublist db.pageContents ∧
      db'.placeholders.Sublist db.placeholders ∧
      (∀ c ∈ db.pageContents, c.id ≠ pc.id → c ∈ db'.pageContents) ∧
      s'.page_count = s.page_count ∧ s'.page_deleted = s.page_deleted ∧
      s'.pagecontents_count = s.pagecontents_count ∧
      (((db.versions.filter
          (fun v => v.object_id == pc.id && v.content_type == ct)).length == 0) = true →
        s'.pagecontents_deleted = s.pagecontents_deleted + 1) ∧
      (((db.versions.filter
          (fun v => v.object_id == pc.id && v.content_type == ct)).length == 0) = false →
        s'.pagecontents_deleted = s.pagecontents_deleted) := by
  by_cases hv : ((db.versions.filter
      (fun v => v.object_id == pc.id && v.content_type == ct)).length == 0) = true
  · obtain ⟨db1, hph, p1, p2, p3, p4, p5, p6, p7, p8, p9⟩ :=
      _delete_page_content_placeholders_spec ct pc db
    cases hpr : pc.prot with
    | true =>
      refine ⟨db1, { s with pagecontents_deleted := s.pagecontents_deleted + 1 }, ?_,
        p1, p3, p4, p5, p6, p7, by rw [p2], p8, ?_, rfl, rfl, rfl, fun _ => rfl,
        fun hf => absurd hv (by simp [hf])⟩
      · show processContent ct (db, s) pc = _
        unfold processContent
        rw [if_pos hv, hph, ok_dot_bind, _delete_page_content_eq_prot db1 hpr, ok_dot_map]
      · intro c hc _
        rw [p2]; exact hc
    | false =>
      refine ⟨{ db1 with pageContents := db1.pageContents.filter (fun c => c.id != pc.id) },
        { s with pagecontents_deleted := s.pagecontents_deleted + 1 }, ?_,
        p1, p3, p4, p5, p6, p7, ?_, p8, ?_, rfl, rfl, rfl, fun _ => rfl,
        fun hf => absurd hv (by simp [hf])⟩
      · show processContent ct (db, s) pc = _
        unfold processContent
        rw [if_pos hv, hph, ok_dot_bind, _delete_page_content_eq_free db1 hpr, ok_dot_map]
      · exact (List.filter_sublist _).trans (by rw [p2])
      · intro c hc hne
        have : c ∈ db1.pageContents := by rw [p2]; exact hc
        exact List.mem_filter.mpr ⟨this, by simpa using hne⟩
  · refine ⟨db, s, ?_, rfl, rfl, rfl, rfl, rfl, rfl, List.Sublist.refl _,
      List.Sublist.refl _, fun c hc _ => hc, rfl, rfl, rfl,
      fun ht => absurd ht hv, fun _ => rfl⟩
    unfold processContent
    rw [if_neg hv]

theorem contentFold_spec (ct : Nat) (cs : List PageContent) :
    ∀ (db : Db) (s : Stats),
    ∃ db' s', cs.foldlM (processContent ct) (db, s) = .ok (db', s') ∧
      db'.pages = db.pages ∧ db'.pageUrls = db.pageUrls ∧ db'.versions = db.versions ∧
      db'.reverseRels = db.reverseRels ∧ db'.pageFieldRels = db.pageFieldRels ∧
      db'.pageContentCT = db.pageContentCT ∧
      db'.pageContents.Sublist db.pageContents ∧
      db'.placeholders.Sublist db.placeholders ∧
      (∀ c ∈ db.pageContents, (∀ x ∈ cs, c.id ≠ x.id) → c ∈ db'.pageContents) ∧
      s'.page_count = s.page_count ∧ s'.page_deleted = s.page_deleted ∧
      s'.pagecontents_count = s.pagecontents_count ∧
      s'.pagecontents_deleted = s.pagecontents_deleted +
        cs.countP (fun x => (db.versions.filter
          (fun v => v.object_id == x.id && v.content_type == ct)).length == 0) := by
  induction cs with
  | nil =>
    intro db s
    exact ⟨db, s, rfl, rfl, rfl, rfl, rfl, rfl, rfl, List.Sublist.refl _,
      List.Sublist.refl _, fun c hc _ => hc, rfl, rfl, rfl, by simp⟩
  | cons pc t ih =>
    intro db s
    obtain ⟨db1, s1, h1, q1, q2, q3, q4, q5, q6, q7, q8, q9, q10, q11, q12, q13, q14⟩ :=
      processContent_spec ct db s pc
    obtain ⟨db', s', h2, r1, r2, r3, r4, r5, r6, r7, r8, r9, r10, r11, r12, r13⟩ :=
      ih db1 s1
    refine ⟨db', s', ?_, r1.trans q1, r2.trans q2, r3.trans q3, r4.trans q4,
      r5.trans q5, r6.trans q6, r7.trans q7, r8.trans q8, ?_, r10.trans q10,
      r11.trans q11, r12.trans q12, ?_⟩
    · rw [List.foldlM_cons, h1, ok_bind]
      exact h2
    · intro c hc hall
      have hc1 : c ∈ db1.pageContents :=
        q9 c hc (hall pc (List.mem_cons_self pc t))
      exact r9 c hc1 (fun x hx => hall x (List.mem_cons_of_mem pc hx))
    · rw [q3] at r13
      by_cases hc : ((db.versions.filter
          (fun v => v.object_id == pc.id && v.content_type == ct)).length == 0) = true
      · have hq := q13 hc
        have hcp : (pc :: t).countP (fun x => (db.versions.filter
            (fun v => v.object_id == x.id && v.content_type == ct)).length == 0)
            = t.countP (fun x => (db.versions.filter
              (fun v => v.object_id == x.id && v.content_type == ct)).length == 0) + 1 := by
          simp [List.countP_cons, hc]
        rw [hcp]
        omega
      · have hc' : ((db.versions.filter
            (fun v => v.object_id == pc.id && v.content_type == ct)).length == 0) = false := by
          simpa using hc
        have hq := q14 hc'
        have hcp : (pc :: t).countP (fun x => (db.versions.filter
            (fun v => v.object_id == x.id && v.content_type == ct)).length == 0)
            = t.countP (fun x => (db.versions.filter
              (fun v => v.object_id == x.id && v.content_type == ct)).length == 0) := by
          simp [List.countP_cons, hc']
        rw [hcp]
        omega

/-! ### The reference-fixing operations -/

theorem _fix_page_references_ok_inv {page : Page} {db db' : Db}
    (h : _fix_page_references page db = .ok db') :
    ∃ repl, _get_replacement_page page db = .ok repl ∧
      ((db.reverseRels.filter relSelected).any (o2oDeleteRaises page.id)) = false ∧
      db' = { db with reverseRels := db.reverseRels.map (fun rel =>
        if relSelected rel then fixRel page.id repl.id rel else rel) } := by
  unfold _fix_page_references at h
  obtain ⟨repl, hr, h2⟩ := bind_ok_inv h
  by_cases ha : ((db.reverseRels.filter relSelected).any (o2oDeleteRaises page.id)) = true
  · rw [if_pos ha] at h2
    cases h2
  · rw [if_neg ha] at h2
    injection h2 with h2
    exact ⟨repl, hr, by simpa using ha, h2.symm⟩

theorem _fix_pagefield_references_ok_inv {page : Page} {db db' : Db}
    (h : _fix_pagefield_references page db = .ok db') :
    ∃ repl, _get_replacement_page page db = .ok repl ∧
      db' = { db with pageFieldRels := db.pageFieldRels.map (fun rel =>
        if rel.isExactPageField then
          { rel with rows := rel.rows.map (fun row =>
              if row.page_ref == page.id then { row with page_ref := repl.id } else row) }
        else rel) } := by
  unfold _fix_pagefield_references at h
  obtain ⟨repl, hr, he⟩ := map_ok_inv h
  exact ⟨repl, hr, he.symm⟩

theorem error_dot_bind {α β : Type} (e : Exc) (g : α → Except Exc β) :
    (Except.error e : Except Exc α).bind g = .error e := rfl

/-! ### `_delete_page` spec -/

theorem _delete_page_spec {page : Page} {db db' : Db}
    (h : _delete_page page db = .ok db') :
    db'.pageContents = db.pageContents ∧ db'.versions = db.versions ∧
    db'.pageContentCT = db.pageContentCT ∧
    db'.pages.Sublist db.pages ∧
    (∀ q ∈ db.pages, q.id ≠ page.id → q ∈ db'.pages) ∧
    (page.prot = false → ∀ q ∈ db'.pages, q.id ≠ page.id) := by
  cases hpr : page.prot with
  | true =>
    rw [_delete_page_eq_prot db hpr] at h
    injection h with h
    subst h
    refine ⟨rfl, rfl, rfl, List.Sublist.refl _, fun q hq _ => hq, ?_⟩
    intro hf
    simp [hpr] at hf
  | false =>
    rw [_delete_page_eq_free db hpr] at h
    injection h with h
    subst h
    refine ⟨rfl, rfl, rfl, List.filter_sublist _, ?_, ?_⟩
    · intro q hq hne
      exact List.mem_filter.mpr ⟨hq, by simpa using hne⟩
    · intro _ q hq
      have := (List.mem_filter.mp hq).2
      simpa using this

/-! ### One step of the page loop -/

theorem processPage_spec (ct : Nat) (db : Db) (s : Stats) (page : Page)
    (db' : Db) (s' : Stats) (h : processPage ct (db, s) page = .ok (db', s')) :
    db'.pages.Sublist db.pages ∧
    db'.pageContents.Sublist db.pageContents ∧
    db'.versions = db.versions ∧
    db'.pageContentCT = db.pageContentCT ∧
    (∀ q ∈ db.pages, q.id ≠ page.id → q ∈ db'.pages) ∧
    (∀ c ∈ db.pageContents,
      (∀ x ∈ db.pageContents, x.page_id = page.id → c.id ≠ x.id) →
      c ∈ db'.pageContents) ∧
    (_get_page_contents page db ≠ [] → db'.pages = db.pages) ∧
    (_get_page_contents page db = [] → page.prot = false →
      ∀ q ∈ db'.pages, q.id ≠ page.id) ∧
    s'.page_count = s.page_count ∧
    (_get_page_contents page db = [] →
      s'.page_deleted = s.page_deleted + 1 ∧
      s'.pagecontents_count = s.pagecontents_count ∧
      s'.pagecontents_deleted = s.pagecontents_deleted) ∧
    (_get_page_contents page db ≠ [] →
      s'.page_deleted = s.page_deleted ∧
      s'.pagecontents_count = s.pagecontents_count + (_get_page_contents page db).length ∧
      s'.pagecontents_deleted = s.pagecontents_deleted +
        (_get_page_contents page db).countP (fun x => (db.versions.filter
          (fun v => v.object_id == x.id && v.content_type == ct)).length == 0)) := by
  by_cases hemp : (_get_page_contents page db).isEmpty = true
  · have hnil : _get_page_contents page db = [] := List.isEmpty_iff.mp hemp
    unfold processPage at h
    simp only [hemp, if_true] at h
    obtain ⟨db1, hf1, h⟩ := bind_ok_inv h
    obtain ⟨db2, hf2, h⟩ := bind_ok_inv h
    obtain ⟨db3, hf3, hpair⟩ := map_ok_inv h
    obtain ⟨repl1, _, _, he1⟩ := _fix_page_references_ok_inv hf1
    obtain ⟨repl2, _, he2⟩ := _fix_pagefield_references_ok_inv hf2
    obtain ⟨d1, d2, d3, d4, d5, d6⟩ := _delete_page_spec hf3
    injection hpair with hdb hst
    subst hdb hst he1 he2
    refine ⟨d4, by rw [d1], by rw [d2], d3, d5, ?_, ?_, fun _ => d6, rfl,
      fun _ => ⟨rfl, rfl, rfl⟩, fun hne => absurd hnil hne⟩
    · intro c hc _
      rw [d1]; exact hc
    · intro hne
      exact absurd hnil hne
  · have hne : _get_page_contents page db ≠ [] := fun hn => hemp (by simp [hn])
    unfold processPage at h
    simp only [hemp] at h
    rw [if_neg (by simp [hemp])] at h
    obtain ⟨dbx, sx, hfold, r1, r2, r3, r4, r5, r6, r7, r8, r9, r10, r11, r12, r13⟩ :=
      contentFold_spec ct (_get_page_contents page db) db
        { s with pagecontents_count := s.pagecontents_count + (_get_page_contents page db).length }
    rw [hfold] at h
    injection h with h
    injection h with hdb hst
    subst hdb hst
    refine ⟨by rw [r1], r7, r3, r6, ?_, ?_, fun _ => r1, fun hn _ => absurd hn hne, r10,
      fun hn => absurd hn hne, fun _ => ⟨r11, r12, r13⟩⟩
    · intro q hq _
      rw [r1]; exact hq
    · intro c hc hall
      refine r9 c hc ?_
      intro x hx
      have := List.mem_filter.mp hx
      exact hall x this.1 (by simpa using this.2)

/-- Processing one page does not change the content list of any page with
a different id, provided content ids are globally unique. -/
theorem contents_step_eq {ct : Nat} {db0 db db' : Db} {s s' : Stats} {q0 q : Page}
    (h : processPage ct (db, s) q0 = .ok (db', s'))
    (hsub : db.pageContents.Sublist db0.pageContents)
    (hnc : (db0.pageContents.map PageContent.id).Nodup)
    (hne : q.id ≠ q0.id) :
    _get_page_contents q db' = _get_page_contents q db := by
  obtain ⟨_, h2, _, _, _, h6, _⟩ := processPage_spec ct db s q0 db' s' h
  refine sublist_eq_of_superset (h2.filter _) ?_ ?_
  · intro c hc
    have hcm := List.mem_filter.mp hc
    have hcpg : c.page_id = q.id := by simpa using hcm.2
    have hcd : c ∈ db'.pageContents := by
      refine h6 c hcm.1 ?_
      intro x hx hxpg
      have hcx : c ≠ x := by
        intro heq
        apply hne
        rw [← hcpg, heq, hxpg]
      exact map_nodup_ne hnc (hsub.subset hcm.1) (hsub.subset hx) hcx
    exact List.mem_filter.mpr ⟨hcd, hcm.2⟩
  · have h0 : db0.pageContents.Nodup := List.Nodup.of_map _ hnc
    have h1 : db.pageContents.Nodup := List.Nodup.sublist hsub h0
    exact h1.filter _

/-! ### The page loop -/

theorem pageFold_versions (ct : Nat) (l : List Page) :
    ∀ (db : Db) (s : Stats) (db' : Db) (s' : Stats),
    l.foldlM (processPage ct) (db, s) = .ok (db', s') →
    db'.versions = db.versions := by
  induction l with
  | nil =>
    intro db s db' s' h
    injection h with h
    injection h with h1 h2
    rw [← h1]
  | cons p t ih =>
    intro db s db' s' h
    rw [List.foldlM_cons] at h
    cases hp : processPage ct (db, s) p with
    | error e => rw [hp, error_bind] at h; cases h
    | ok acc1 =>
      obtain ⟨db1, s1⟩ := acc1
      rw [hp, ok_bind] at h
      have h3 := (processPage_spec ct db s p db1 s1 hp).2.2.1
      rw [ih db1 s1 db' s' h, h3]

theorem pageFold_spec (ct : Nat) (db0 : Db)
    (hnc : (db0.pageContents.map PageContent.id).Nodup) :
    ∀ (l : List Page) (db : Db) (s : Stats) (db' : Db) (s' : Stats),
    l.foldlM (processPage ct) (db, s) = .ok (db', s') →
    db.pageContents.Sublist db0.pageContents →
    db.versions = db0.versions →
    (∀ q ∈ l, _get_page_contents q db = _get_page_contents q db0) →
    (l.map Page.id).Nodup →
    db'.pages.Sublist db.pages ∧
    db'.versions = db.versions ∧
    (∀ r ∈ db.pages, (∀ q ∈ l, q.id ≠ r.id) → r ∈ db'.pages) ∧
    (∀ p ∈ l, p ∈ db.pages → _get_page_contents p db0 ≠ [] → p ∈ db'.pages) ∧
    (∀ p ∈ l, p.prot = false → _get_page_contents p db0 = [] →
      ∀ q ∈ db'.pages, q.id ≠ p.id) ∧
    s'.page_count = s.page_count ∧
    s'.page_deleted = s.page_deleted +
      (l.filter (fun p => (_get_page_contents p db0).isEmpty)).length ∧
    s'.pagecontents_count = s.pagecontents_count +
      ((l.filter (fun p => !(_get_page_contents p db0).isEmpty)).map
        (fun p => (_get_page_contents p db0).length)).sum ∧
    s'.pagecontents_deleted + s.pagecontents_count ≤
      s'.pagecontents_count + s.pagecontents_deleted ∧
    s'.pagecontents_deleted = s.pagecontents_deleted +
      ((l.filter (fun p => !(_get_page_contents p db0).isEmpty)).map
        (fun p => (_get_page_contents p db0).countP
          (fun x => (db0.versions.filter
            (fun v => v.object_id == x.id && v.content_type == ct)).length == 0))).sum := by
  intro l
  induction l with
  | nil =>
    intro db s db' s' h _ _ _ _
    injection h with h
    injection h with h1 h2
    subst h1 h2
    refine ⟨List.Sublist.refl _, rfl, fun r hr _ => hr, ?_, ?_, rfl, by simp, by simp,
      Nat.le_of_eq (Nat.add_comm _ _), by simp⟩
    · intro p hp
      cases hp
    · intro p hp
      cases hp
  | cons q0 t ih =>
    intro db s db' s' h hsub hver hInv hnodup
    rw [List.foldlM_cons] at h
    cases hp : processPage ct (db, s) q0 with
    | error e => rw [hp, error_bind] at h; cases h
    | ok acc1 =>
      obtain ⟨db1, s1⟩ := acc1
      rw [hp, ok_bind] at h
      obtain ⟨sp1, sp2, sp3, sp4, sp5, sp6, sp7, sp8, sp9, sp10, sp11⟩ :=
        processPage_spec ct db s q0 db1 s1 hp
      have hq0Inv : _get_page_contents q0 db = _get_page_contents q0 db0 :=
        hInv q0 (List.mem_cons_self q0 t)
      have hnodup_t : (t.map Page.id).Nodup := (List.nodup_cons.mp hnodup).2
      have hq0id : q0.id ∉ t.map Page.id := (List.nodup_cons.mp hnodup).1
      have htne : ∀ q ∈ t, q.id ≠ q0.id := by
        intro q hq heq
        exact hq0id (heq ▸ List.mem_map_of_mem Page.id hq)
      have hsub1 : db1.pageContents.Sublist db0.pageContents := sp2.trans hsub
      have hver1 : db1.versions = db0.versions := sp3.trans hver
      have hInv1 : ∀ q ∈ t, _get_page_contents q db1 = _get_page_contents q db0 := by
        intro q hq
        rw [contents_step_eq hp hsub hnc (htne q hq)]
        exact hInv q (List.mem_cons_of_mem q0 hq)
      obtain ⟨c1, c2, c3, c4, c5, c6, c7, c8, c9, c10⟩ :=
        ih db1 s1 db' s' h hsub1 hver1 hInv1 hnodup_t
      refine ⟨c1.trans sp1, c2.trans sp3, ?_, ?_, ?_, c6.trans sp9, ?_, ?_, ?_, ?_⟩
      · intro r hr hall
        have hr1 : r ∈ db1.pages :=
          sp5 r hr (Ne.symm (hall q0 (List.mem_cons_self q0 t)))
        exact c3 r hr1 (fun q hq => hall q (List.mem_cons_of_mem q0 hq))
      · intro p hp' hpg hne
        rcases List.mem_cons.mp hp' with he | ht
        · subst he
          have hne_db : _get_page_contents p db ≠ [] := by
            rw [hq0Inv]; exact hne
          have hpages : db1.pages = db.pages := sp7 hne_db
          have hp1 : p ∈ db1.pages := by rw [hpages]; exact hpg
          exact c3 p hp1 (fun q hq heq => htne q hq heq)
        · have hp1 : p ∈ db1.pages := sp5 p hpg (htne p ht)
          exact c4 p ht hp1 hne
      · intro p hp' hprot hempty x hx
        rcases List.mem_cons.mp hp' with he | ht
        · subst he
          have hemp_db : _get_page_contents p db = [] := by
            rw [hq0Inv]; exact hempty
          exact sp8 hemp_db hprot x (c1.subset hx)
        · exact c5 p ht hprot hempty x hx
      · by_cases horph : _get_page_contents q0 db0 = []
        · obtain ⟨e1, e2, e3⟩ := sp10 (by rw [hq0Inv]; exact horph)
          have hfc : List.filter (fun p => (_get_page_contents p db0).isEmpty) (q0 :: t)
              = q0 :: List.filter (fun p => (_get_page_contents p db0).isEmpty) t := by
            simp [List.filter_cons, horph]
          rw [hfc, List.length_cons]
          omega
        · obtain ⟨e1, e2, e3⟩ := sp11 (by rw [hq0Inv]; exact horph)
          have hpred : (_get_page_contents q0 db0).isEmpty = false := by
            cases hgc : _get_page_contents q0 db0 with
            | nil => exact absurd hgc horph
            | cons a l => rfl
          have hfc : List.filter (fun p => (_get_page_contents p db0).isEmpty) (q0 :: t)
              = List.filter (fun p => (_get_page_contents p db0).isEmpty) t := by
            simp [List.filter_cons, hpred]
          rw [hfc]
          omega
      · by_cases horph : _get_page_contents q0 db0 = []
        · obtain ⟨e1, e2, e3⟩ := sp10 (by rw [hq0Inv]; exact horph)
          have hfc : List.filter (fun p => !(_get_page_contents p db0).isEmpty) (q0 :: t)
              = List.filter (fun p => !(_get_page_contents p db0).isEmpty) t := by
            simp [List.filter_cons, horph]
          rw [hfc]
          omega
        · obtain ⟨e1, e2, e3⟩ := sp11 (by rw [hq0Inv]; exact horph)
          have hpred : (_get_page_contents q0 db0).isEmpty = false := by
            cases hgc : _get_page_contents q0 db0 with
            | nil => exact absurd hgc horph
            | cons a l => rfl
          have hfc : List.filter (fun p => !(_get_page_contents p db0).isEmpty) (q0 :: t)
              = q0 :: List.filter (fun p => !(_get_page_contents p db0).isEmpty) t := by
            simp [List.filter_cons, hpred]
          rw [hfc, List.map_cons, List.sum_cons]
          have hlen : (_get_page_contents q0 db).length =
              (_get_page_contents q0 db0).length := by rw [hq0Inv]
          omega
      · by_cases horph : _get_page_contents q0 db0 = []
        · obtain ⟨e1, e2, e3⟩ := sp10 (by rw [hq0Inv]; exact horph)
          omega
        · obtain ⟨e1, e2, e3⟩ := sp11 (by rw [hq0Inv]; exact horph)
          have hle : (_get_page_contents q0 db).countP (fun x => (db.versions.filter
              (fun v => v.object_id == x.id && v.content_type == ct)).length == 0)
              ≤ (_get_page_contents q0 db).length := List.countP_le_length _
          omega
      · by_cases horph : _get_page_contents q0 db0 = []
        · obtain ⟨e1, e2, e3⟩ := sp10 (by rw [hq0Inv]; exact horph)
          have hfc : List.filter (fun p => !(_get_page_contents p db0).isEmpty) (q0 :: t)
              = List.filter (fun p => !(_get_page_contents p db0).isEmpty) t := by
            simp [List.filter_cons, horph]
          rw [hfc]
          omega
        · obtain ⟨e1, e2, e3⟩ := sp11 (by rw [hq0Inv]; exact horph)
          have hpred : (_get_page_contents q0 db0).isEmpty = false := by
            cases hgc : _get_page_contents q0 db0 with
            | nil => exact absurd hgc horph
            | cons a l => rfl
          have hfc : List.filter (fun p => !(_get_page_contents p db0).isEmpty) (q0 :: t)
              = q0 :: List.filter (fun p => !(_get_page_contents p db0).isEmpty) t := by
            simp [List.filter_cons, hpred]
          rw [hfc, List.map_cons, List.sum_cons]
          have hcnt : (_get_page_contents q0 db).countP (fun x => (db.versions.filter
              (fun v => v.object_id == x.id && v.content_type == ct)).length == 0)
              = (_get_page_contents q0 db0).countP (fun x => (db0.versions.filter
                (fun v => v.object_id == x.id && v.content_type == ct)).length == 0) := by
            rw [hq0Inv, hver]
          omega

/-! ### Consequences at the level of `handle` -/

theorem handle_as_fold (db : Db) :
    handle db = db.pages.foldlM (processPage db.pageContentCT)
      (db,
        { page_count := db.pages.length
          page_deleted := 0
          pagecontents_count := 0
          pagecontents_deleted := 0 }) := rfl

theorem handle_versions {db db' : Db} {s' : Stats}
    (h : handle db = .ok (db', s')) : db'.versions = db.versions := by
  rw [handle_as_fold] at h
  exact pageFold_versions db.pageContentCT db.pages db _ db' s' h

theorem handle_master {db db' : Db} {s' : Stats}
    (hnp : (db.pages.map Page.id).Nodup)
    (hnc : (db.pageContents.map PageContent.id).Nodup)
    (h : handle db = .ok (db', s')) :
    db'.pages.Sublist db.pages ∧
    db'.versions = db.versions ∧
    (∀ r ∈ db.pages, (∀ q ∈ db.pages, q.id ≠ r.id) → r ∈ db'.pages) ∧
    (∀ p ∈ db.pages, p ∈ db.pages → _get_page_contents p db ≠ [] → p ∈ db'.pages) ∧
    (∀ p ∈ db.pages, p.prot = false → _get_page_contents p db = [] →
      ∀ q ∈ db'.pages, q.id ≠ p.id) ∧
    s'.page_count = db.pages.length ∧
    s'.page_deleted = 0 +
      (db.pages.filter (fun p => (_get_page_contents p db).isEmpty)).length ∧
    s'.pagecontents_count = 0 +
      ((db.pages.filter (fun p => !(_get_page_contents p db).isEmpty)).map
        (fun p => (_get_page_contents p db).length)).sum ∧
    s'.pagecontents_deleted + 0 ≤ s'.pagecontents_count + 0 ∧
    s'.pagecontents_deleted = 0 +
      ((db.pages.filter (fun p => !(_get_page_contents p db).isEmpty)).map
        (fun p => (_get_page_contents p db).countP
          (fun x => (db.versions.filter
            (fun v => v.object_id == x.id && v.content_type == db.pageContentCT)).length
              == 0))).sum := by
  rw [handle_as_fold] at h
  exact pageFold_spec db.pageContentCT db hnc db.pages db _ db' s' h
    (List.Sublist.refl _) rfl (fun q _ => rfl) hnp

theorem nonOrphan_survives {db db' : Db} {s' : Stats}
    (hnp : (db.pages.map Page.id).Nodup)
    (hnc : (db.pageContents.map PageContent.id).Nodup)
    (h : handle db = .ok (db', s'))
    {p : Page} (hp : p ∈ db.pages) (hne : _get_page_contents p db ≠ []) :
    p ∈ db'.pages :=
  (handle_master hnp hnc h).2.2.2.1 p hp hp hne

theorem orphan_removed {db db' : Db} {s' : Stats}
    (hnp : (db.pages.map Page.id).Nodup)
    (hnc : (db.pageContents.map PageContent.id).Nodup)
    (h : handle db = .ok (db', s'))
    {p : Page} (hp : p ∈ db.pages) (hprot : p.prot = false)
    (hemp : _get_page_contents p db = []) :
    ∀ q ∈ db'.pages, q.id ≠ p.id :=
  (handle_master hnp hnc h).2.2.2.2.1 p hp hprot hemp

/-! ### The claims -/

/-- C1: for every `Page` processed by the command, the orphan branch —
reference fixing and deletion of its `cms_page` row — is taken exactly
when the page has no `PageContent` row as returned by the base manager:
a page with at least one content row survives every successful run, and an
orphan page (whose delete is not blocked by a protecting foreign key) is
gone from the final state, no row with its id remaining.  Page and content
ids are assumed unique, as database primary keys are. -/
theorem C1_orphan_iff_no_content (db db' : Db) (s' : Stats)
    (hnp : (db.pages.map Page.id).Nodup)
    (hnc : (db.pageContents.map PageContent.id).Nodup)
    (h : handle db = .ok (db', s')) :
    ∀ p ∈ db.pages,
      (_get_page_contents p db ≠ [] → p ∈ db'.pages) ∧
      (_get_page_contents p db = [] → p.prot = false →
        ∀ q ∈ db'.pages, q.id ≠ p.id) := by
  intro p hp
  exact ⟨fun hne => nonOrphan_survives hnp hnc h hp hne,
    fun hemp hprot => orphan_removed hnp hnc h hp hprot hemp⟩

/-- C1 witness: in `dbA`, page 2 (which has a content row) survives the
run, while no page with the orphan id 1 remains. -/
theorem C1_witness :
    (⟨2, 1, false⟩ : Page) ∈ dbAres.pages ∧
    ((⟨1, 1, false⟩ : Page) ∈ dbA.pages → ∀ q ∈ dbAres.pages, q.id ≠ 1) :=
  ⟨(C1_orphan_iff_no_content dbA dbAres ⟨2, 1, 1, 1⟩ (by decide) (by decide) (by rfl)
      ⟨2, 1, false⟩ (by decide)).1 (by decide),
   fun hp => (C1_orphan_iff_no_content dbA dbAres ⟨2, 1, 1, 1⟩ (by decide) (by decide)
      (by rfl) ⟨1, 1, false⟩ hp).2 (by decide) (by decide)⟩

/-- C2: `_get_replacement_page` returns the unique sibling page sharing
the node (same `node_id`, different `id`); with zero or several siblings
it raises `DoesNotExist` resp. `MultipleObjectsReturned`, never
`ProtectedError`, and such an error from the lookup aborts the processing
of an orphan page rather than being swallowed. -/
theorem C2_replacement_unique_sibling (db : Db) (p : Page) :
    (∀ r, _get_replacement_page p db = .ok r →
      r ∈ db.pages ∧ r.node_id = p.node_id ∧ r.id ≠ p.id ∧
      ∀ q ∈ db.pages, q.node_id = p.node_id → q.id ≠ p.id → q = r) ∧
    (∀ e, _get_replacement_page p db = .error e → e ≠ .protectedError) ∧
    (db.pages.filter (fun q => q.node_id == p.node_id && q.id != p.id) = [] →
      _get_replacement_page p db = .error .doesNotExist) ∧
    (2 ≤ (db.pages.filter (fun q => q.node_id == p.node_id && q.id != p.id)).length →
      _get_replacement_page p db = .error .multipleObjectsReturned) ∧
    (∀ ct s e, _get_page_contents p db = [] → _get_replacement_page p db = .error e →
      processPage ct (db, s) p = .error e) := by
  refine ⟨?_, ?_, replacement_of_no_sibling, replacement_of_many_siblings, ?_⟩
  · intro r hr
    obtain ⟨h1, h2, h3⟩ := replacement_ok hr
    exact ⟨h1, h2, h3, fun q hq hqn hqi => replacement_unique hr hq hqn hqi⟩
  · intro e he hcontra
    subst hcontra
    rcases replacement_error he with h | h <;> cases h
  · intro ct s e hemp herr
    have hie : (_get_page_contents p db).isEmpty = true := by simp [hemp]
    have hfix : _fix_page_references p db = .error e := by
      unfold _fix_page_references
      rw [herr]
      rfl
    unfold processPage
    simp only [hie, if_true]
    rw [hfix, error_dot_bind]

/-- C2 witness: in `dbB` page 1 has no sibling on node 1, so the lookup
raises `DoesNotExist` and the whole run aborts with it. -/
theorem C2_witness :
    _get_replacement_page ⟨1, 1, false⟩ dbB = .error .doesNotExist ∧
    processPage 5 (dbB, ⟨1, 0, 0, 0⟩) ⟨1, 1, false⟩ = .error .doesNotExist :=
  ⟨(C2_replacement_unique_sibling dbB ⟨1, 1, false⟩).2.2.1 (by decide),
   (C2_replacement_unique_sibling dbB ⟨1, 1, false⟩).2.2.2.2 5 ⟨1, 0, 0, 0⟩
     .doesNotExist (by decide)
     ((C2_replacement_unique_sibling dbB ⟨1, 1, false⟩).2.2.1 (by decide))⟩

/-- C4: only `ProtectedError` is caught, and only at the three catch
sites: `catchProtected` recovers exactly from `protectedError`
(continuing with the state the `try` block reached) and passes every other
exception and every success through unchanged; the three guarded deletes
(page, placeholder loop, page content) never let an exception escape — the
`ProtectedError` is logged and the loop continues; and an exception raised
anywhere else during the run propagates and aborts the command — shown for
an exception from the orphan-fixing step aborting the page loop, and
concretely by the run on `dbO2O`, whose unguarded one-to-one queryset
delete raises a `ProtectedError` that no `except` clause catches. -/
theorem C4_only_protected_caught (db d : Db) (e : Exc) :
    catchProtected (.error .protectedError) d = .ok d ∧
    (e ≠ .protectedError → catchProtected (.error e) d = .error e) ∧
    (∀ x, catchProtected (.ok x) d = .ok x) ∧
    (∀ page, ∃ d1, _delete_page page d = .ok d1) ∧
    (∀ ct pc, ∃ d1, _delete_page_content_placeholders ct pc d = .ok d1) ∧
    (∀ pc, ∃ d1, _delete_page_content pc d = .ok d1) ∧
    (∀ ct s p t, _get_page_contents p db = [] →
      _fix_page_references p db = .error e →
      (p :: t).foldlM (processPage ct) (db, s) = .error e) ∧
    handle dbO2O = .error .protectedError := by
  refine ⟨rfl, ?_, fun x => rfl, ?_, ?_, ?_, ?_, rfl⟩
  · intro hne
    cases e with
    | protectedError => exact absurd rfl hne
    | doesNotExist => rfl
    | multipleObjectsReturned => rfl
  · intro page
    cases hpr : page.prot with
    | true => exact ⟨_, _delete_page_eq_prot d hpr⟩
    | false => exact ⟨_, _delete_page_eq_free d hpr⟩
  · intro ct pc
    obtain ⟨d1, h1, _⟩ := _delete_page_content_placeholders_spec ct pc d
    exact ⟨d1, h1⟩
  · intro pc
    cases hpr : pc.prot with
    | true => exact ⟨_, _delete_page_content_eq_prot d hpr⟩
    | false => exact ⟨_, _delete_page_content_eq_free d hpr⟩
  · intro ct st p t hemp herr
    have hie : (_get_page_contents p db).isEmpty = true := by simp [hemp]
    have hpp : processPage ct (db, st) p = .error e := by
      unfold processPage
      simp only [hie, if_true]
      rw [herr, error_dot_bind]
    rw [List.foldlM_cons, hpp, error_bind]

/-- C4 witness: `ProtectedError` is swallowed by the catch, `DoesNotExist`
propagates through it, a lookup failure aborts the page loop, and the run
on `dbO2O` aborts with the uncaught `ProtectedError` of the unguarded
one-to-one delete. -/
theorem C4_witness :
    catchProtected (.error .protectedError) dbB = .ok dbB ∧
    catchProtected (.error .doesNotExist) dbB = .error .doesNotExist ∧
    ([(⟨1, 1, false⟩ : Page)].foldlM (processPage 5) (dbB, ⟨1, 0, 0, 0⟩) =
      .error .doesNotExist) ∧
    handle dbO2O = .error .protectedError :=
  ⟨(C4_only_protected_caught dbB dbB .doesNotExist).1,
   (C4_only_protected_caught dbB dbB .doesNotExist).2.1 (by decide),
   (C4_only_protected_caught dbB dbB .doesNotExist).2.2.2.2.2.2.1 5 ⟨1, 0, 0, 0⟩
     ⟨1, 1, false⟩ [] (by decide) (by rfl),
   (C4_only_protected_caught dbB dbB .doesNotExist).2.2.2.2.2.2.2⟩

/-- C6 counterexample: no run of the command ever deletes or mutates a row
of the version table — the claim that some run does is false: every
successful run returns the version rows unchanged. -/
theorem C6_counterexample :
    ¬ ∃ (db db' : Db) (s' : Stats),
      handle db = .ok (db', s') ∧ db'.versions ≠ db.versions := by
  rintro ⟨db, db', s', h, hne⟩
  exact hne (handle_versions h)

/-- C6 amended: the command's side effects are mutation and deletion of
rows in the page, url, content, placeholder and page-relation tables; the
version table is only read (to test contents for versions), never written:
every successful run returns it unchanged. -/
theorem C6_side_effects (db db' : Db) (s' : Stats)
    (h : handle db = .ok (db', s')) :
    db'.versions = db.versions :=
  handle_versions h

/-- C6 witness: the run on `dbC` deletes a page, a url, a content row and
a placeholder, yet its version rows come out exactly as they went in. -/
theorem C6_witness : dbCres.versions = dbC.versions :=
  C6_side_effects dbC dbCres ⟨2, 1, 2, 1⟩ (by rfl)

/-- C8: the stats record logged at the end of a run has `page_count` equal
to the number of `Page` rows at the start, `page_deleted` equal to the
number of pages processed as orphans (those with no content row),
`pagecontents_count` equal to the total number of content rows over pages
having at least one, and `pagecontents_deleted` equal to the number of
content rows processed for deletion — those of non-orphan pages having no
matching `Version` record; consequently `page_deleted ≤ page_count` and
`pagecontents_deleted ≤ pagecontents_count`.  Ids are assumed unique as
befits primary keys. -/
theorem C8_stats (db db' : Db) (s' : Stats)
    (hnp : (db.pages.map Page.id).Nodup)
    (hnc : (db.pageContents.map PageContent.id).Nodup)
    (h : handle db = .ok (db', s')) :
    s'.page_count = db.pages.length ∧
    s'.page_deleted =
      (db.pages.filter (fun p => (_get_page_contents p db).isEmpty)).length ∧
    s'.pagecontents_count =
      ((db.pages.filter (fun p => !(_get_page_contents p db).isEmpty)).map
        (fun p => (_get_page_contents p db).length)).sum ∧
    s'.pagecontents_deleted =
      ((db.pages.filter (fun p => !(_get_page_contents p db).isEmpty)).map
        (fun p => (_get_page_contents p db).countP
          (fun x => (db.versions.filter
            (fun v => v.object_id == x.id && v.content_type == db.pageContentCT)).length
              == 0))).sum ∧
    s'.page_deleted ≤ s'.page_count ∧
    s'.pagecontents_deleted ≤ s'.pagecontents_count := by
  obtain ⟨_, _, _, _, _, c6, c7, c8, c9, c10⟩ := handle_master hnp hnc h
  have c7' : s'.page_deleted =
      (db.pages.filter (fun p => (_get_page_contents p db).isEmpty)).length := by
    simpa using c7
  refine ⟨c6, c7', by simpa using c8, by simpa using c10, ?_, by simpa using c9⟩
  rw [c6, c7']
  exact List.length_filter_le _ _

/-- C8 witness: on `dbC`, the final stats report one deleted page — the
number of initially orphaned pages — and one deleted content row — the
number of versionless content rows over the surviving pages. -/
theorem C8_witness :
    (⟨2, 1, 2, 1⟩ : Stats).page_deleted =
      (dbC.pages.filter (fun p => (_get_page_contents p dbC).isEmpty)).length ∧
    (⟨2, 1, 2, 1⟩ : Stats).pagecontents_deleted =
      ((dbC.pages.filter (fun p => !(_get_page_contents p dbC).isEmpty)).map
        (fun p => (_get_page_contents p dbC).countP
          (fun x => (dbC.versions.filter
            (fun v => v.object_id == x.id && v.content_type == dbC.pageContentCT)).length
              == 0))).sum :=
  ⟨(C8_stats dbC dbCres ⟨2, 1, 2, 1⟩ (by decide) (by decide) (by rfl)).2.1,
   (C8_stats dbC dbCres ⟨2, 1, 2, 1⟩ (by decide) (by decide) (by rfl)).2.2.2.1⟩

/-- C9: the deletion counters count attempts, not successes: on `dbP`,
whose orphan page and versionless content are both protected, the run
removes nothing — the final state is `dbP` itself — yet the logged stats
report one deleted page and one deleted content row. -/
theorem C9_counters_count_attempts :
    handle dbP = .ok (dbP, ⟨2, 1, 1, 1⟩) ∧
    dbP.pages.length = 2 ∧ dbP.pageContents.length = 1 :=
  ⟨rfl, rfl, rfl⟩

/-- C10: orphan detection uses the base manager, so hidden content rows
count: every content row attached to a page is in `_get_page_contents`
regardless of its `hidden` flag, the default manager would return exactly
the non-hidden ones, and a page whose contents are all hidden is still
non-orphaned and survives the run. -/
theorem C10_base_manager (db db' : Db) (s' : Stats)
    (hnp : (db.pages.map Page.id).Nodup)
    (hnc : (db.pageContents.map PageContent.id).Nodup)
    (h : handle db = .ok (db', s')) :
    (∀ p : Page, ∀ c ∈ db.pageContents, c.page_id = p.id → c ∈ _get_page_contents p db) ∧
    (∀ p : Page, defaultManagerContents p db =
      (_get_page_contents p db).filter (fun c => !c.hidden)) ∧
    (∀ p ∈ db.pages, _get_page_contents p db ≠ [] →
      defaultManagerContents p db = [] → p ∈ db'.pages) := by
  refine ⟨?_, ?_, ?_⟩
  · intro p c hc hpg
    exact List.mem_filter.mpr ⟨hc, by simp [hpg]⟩
  · intro p
    unfold defaultManagerContents _get_page_contents
    rw [List.filter_filter]
    congr 1
    funext c
    exact Bool.and_comm _ _
  · intro p hp hne _
    exact nonOrphan_survives hnp hnc h hp hne

/-- C10 witness: in `dbH`, page 2 has one content row, hidden from the
default manager; the page is still treated as non-orphaned and survives. -/
theorem C10_witness : (⟨2, 1, false⟩ : Page) ∈ dbHres.pages :=
  (C10_base_manager dbH dbHres ⟨2, 1, 1, 1⟩ (by decide) (by decide) (by rfl)).2.2
    ⟨2, 1, false⟩ (by decide) (by decide) (by decide)

/-- After `remove(page); add(replacement)` on a related object that was
linked to the page, the page is no longer linked and the replacement is. -/
theorem m2mRepoint_spec (pageId replId : Nat) (row : M2MRow) (hne : replId ≠ pageId)
    (hmem : pageId ∈ row.page_refs) :
    pageId ∉ (m2mRepoint pageId replId row).page_refs ∧
    replId ∈ (m2mRepoint pageId replId row).page_refs := by
  unfold m2mRepoint
  rw [if_pos hmem]
  dsimp only
  by_cases hr : replId ∈ row.page_refs.filter (fun r => r != pageId)
  · rw [if_pos hr]
    refine ⟨?_, hr⟩
    intro hcon
    have := (List.mem_filter.mp hcon).2
    simp at this
  · rw [if_neg hr]
    constructor
    · intro hcon
      rcases List.mem_append.mp hcon with hL | hR
      · have := (List.mem_filter.mp hL).2
        simp at this
      · exact hne (List.mem_singleton.mp hR).symm
    · exact List.mem_append.mpr (Or.inr (List.mem_singleton.mpr rfl))

/-- C3: for every auto-created, non-concrete reverse relation of `Page`
whose related model is not `PageUrl`, the fix dispatches on cardinality:
one-to-one related rows referencing the orphan are deleted; each
many-to-many related object has the orphan removed from the relation and
the replacement added; the remaining (one-to-many) rows referencing the
orphan are updated to reference the replacement.  The final conjunct ties
this to `_fix_page_references`, which applies `fixRel` to exactly the
relations passing the source's `get_fields` filter. -/
theorem C3_reverse_relation_dispatch (pageId replId : Nat) (rel : ReverseRel)
    (hne : replId ≠ pageId)
    (_hsel : relSelected rel = true) (hurl : rel.relatedIsPageUrl = false) :
    (rel.one_to_one = true →
      (fixRel pageId replId rel).fkRows =
        rel.fkRows.filter (fun row => row.page_ref != pageId) ∧
      ∀ row ∈ (fixRel pageId replId rel).fkRows, row.page_ref ≠ pageId) ∧
    (rel.one_to_one = false → rel.many_to_many = true →
      ∀ row ∈ rel.m2mRows,
        (pageId ∈ row.page_refs →
          m2mRepoint pageId replId row ∈ (fixRel pageId replId rel).m2mRows ∧
          pageId ∉ (m2mRepoint pageId replId row).page_refs ∧
          replId ∈ (m2mRepoint pageId replId row).page_refs) ∧
        (pageId ∉ row.page_refs → row ∈ (fixRel pageId replId rel).m2mRows)) ∧
    (rel.one_to_one = false → rel.many_to_many = false →
      ∀ row ∈ rel.fkRows,
        (row.page_ref = pageId →
          { row with page_ref := replId } ∈ (fixRel pageId replId rel).fkRows) ∧
        (row.page_ref ≠ pageId → row ∈ (fixRel pageId replId rel).fkRows)) ∧
    (∀ page repl db db', _fix_page_references page db = .ok db' →
      _get_replacement_page page db = .ok repl →
      ∀ r ∈ db.reverseRels, relSelected r = true →
        fixRel page.id repl.id r ∈ db'.reverseRels) := by
  refine ⟨?_, ?_, ?_, ?_⟩
  · intro h11
    have hfix : (fixRel pageId replId rel).fkRows =
        rel.fkRows.filter (fun row => row.page_ref != pageId) := by
      simp [fixRel, hurl, h11]
    refine ⟨hfix, ?_⟩
    intro row hrow
    rw [hfix] at hrow
    have := (List.mem_filter.mp hrow).2
    simpa using this
  · intro h11 hmm
    have hfix : (fixRel pageId replId rel).m2mRows =
        rel.m2mRows.map (m2mRepoint pageId replId) := by
      simp [fixRel, hurl, h11, hmm]
    intro row hrow
    constructor
    · intro hmem
      obtain ⟨hout, hin⟩ := m2mRepoint_spec pageId replId row hne hmem
      refine ⟨?_, hout, hin⟩
      rw [hfix]
      exact List.mem_map_of_mem _ hrow
    · intro hnot
      rw [hfix]
      have hid : m2mRepoint pageId replId row = row := by
        unfold m2mRepoint
        rw [if_neg hnot]
      rw [← hid]
      exact List.mem_map_of_mem _ hrow
  · intro h11 hmm
    have hfix : (fixRel pageId replId rel).fkRows =
        rel.fkRows.map (fun row =>
          if row.page_ref == pageId then { row with page_ref := replId } else row) := by
      simp [fixRel, hurl, h11, hmm]
    intro row hrow
    constructor
    · intro heq
      rw [hfix]
      have hrew : (if row.page_ref == pageId then { row with page_ref := replId } else row)
          = { row with page_ref := replId } := by
        rw [if_pos (by simp [heq])]
      rw [← hrew]
      exact List.mem_map_of_mem _ hrow
    · intro hneq
      rw [hfix]
      have hrew : (if row.page_ref == pageId then { row with page_ref := replId } else row)
          = row := by
        rw [if_neg (by simpa using hneq)]
      rw [← hrew]
      exact List.mem_map_of_mem _ hrow
  · intro page repl db db' hfixref hrepl r hr hselr
    obtain ⟨r0, hr0, _, he⟩ := _fix_page_references_ok_inv hfixref
    rw [hrepl] at hr0
    injection hr0 with hr0
    subst hr0 he
    have hrew : (if relSelected r then fixRel page.id repl.id r else r)
        = fixRel page.id repl.id r := by rw [if_pos hselr]
    dsimp only
    rw [← hrew]
    exact List.mem_map_of_mem _ hr

/-- C3 witness: a one-to-many reverse-relation row pointing at page 5 is
updated to point at the replacement page 7. -/
theorem C3_witness :
    (⟨1, 7, false⟩ : FkRow) ∈ (fixRel 5 7 relOneToMany).fkRows :=
  ((C3_reverse_relation_dispatch 5 7 relOneToMany (by decide) (by decide)
      (by decide)).2.2.1 (by decide) (by decide) ⟨1, 5, false⟩ (by decide)).1 (by decide)

/-- C5: a content row of a surviving page with no matching `Version`
record has its attached placeholders deleted (generic-relation match on
`object_id` and content type) and then the content row itself, each delete
individually swallowing `ProtectedError`; a content row with at least one
`Version` is left untouched, state and stats unchanged.  The final
conjunct ties this to the page loop: a non-orphan page is processed by
folding `processContent` over its content rows. -/
theorem C5_versionless_content_cleanup (ct : Nat) (db : Db) (s : Stats)
    (pc : PageContent) (page : Page) :
    ((db.versions.filter (fun v => v.object_id == pc.id && v.content_type == ct)).length = 0 →
      ∀ db' s', processContent ct (db, s) pc = .ok (db', s') →
        (∀ ph ∈ db.placeholders, ph.object_id = pc.id → ph.content_type = ct →
          ph.prot = false → ∀ q ∈ db'.placeholders, q.id ≠ ph.id) ∧
        (pc.prot = false → ∀ c ∈ db'.pageContents, c.id ≠ pc.id)) ∧
    ((db.versions.filter (fun v => v.object_id == pc.id && v.content_type == ct)).length ≠ 0 →
      processContent ct (db, s) pc = .ok (db, s)) ∧
    (_get_page_contents page db ≠ [] →
      processPage ct (db, s) page = (_get_page_contents page db).foldlM (processContent ct)
        (db, { s with pagecontents_count :=
          s.pagecontents_count + (_get_page_contents page db).length })) := by
  refine ⟨?_, ?_, ?_⟩
  · intro hv0 db' s' h
    have hv : ((db.versions.filter
        (fun v => v.object_id == pc.id && v.content_type == ct)).length == 0) = true := by
      simp [hv0]
    unfold processContent at h
    rw [if_pos hv] at h
    obtain ⟨db1, hph, p1, p2, p3, p4, p5, p6, p7, p8, p9⟩ :=
      _delete_page_content_placeholders_spec ct pc db
    rw [hph, ok_dot_bind] at h
    cases hpr : pc.prot with
    | true =>
      rw [_delete_page_content_eq_prot db1 hpr, ok_dot_map] at h
      injection h with h
      injection h with hdb hst
      subst hdb hst
      refine ⟨p9, ?_⟩
      intro hf
      simp [hpr] at hf
    | false =>
      rw [_delete_page_content_eq_free db1 hpr, ok_dot_map] at h
      injection h with h
      injection h with hdb hst
      subst hdb hst
      refine ⟨p9, ?_⟩
      intro _ c hc
      have := (List.mem_filter.mp hc).2
      simpa using this
  · intro hvne
    unfold processContent
    rw [if_neg (by simpa using hvne)]
  · intro hne
    have hie : (_get_page_contents page db).isEmpty = false := by
      cases hgc : _get_page_contents page db with
      | nil => exact absurd hgc hne
      | cons a l => rfl
    unfold processPage
    rw [if_neg (by simp [hie])]

/-- C5 witness: in `dbV` content 10 has a `Version`, so processing it
leaves the state and the stats exactly as they were. -/
theorem C5_witness :
    processContent 7 (dbV, ⟨1, 0, 1, 0⟩) ⟨10, 1, false, false⟩ =
      .ok (dbV, ⟨1, 0, 1, 0⟩) :=
  (C5_versionless_content_cleanup 7 dbV ⟨1, 0, 1, 0⟩ ⟨10, 1, false, false⟩
    ⟨1, 1, false⟩).2.1 (by decide)

/-- C7: when an orphan page is removed, every relation-tree entry of exact
type `PageField` has its rows referencing the orphan updated to reference
the replacement (entries of other types untouched), reverse relations onto
`PageUrl` are skipped by the reference fixing, and `_delete_page` then
removes the page's url rows and — when no `ProtectedError` intervenes —
the page row itself via raw SQL. -/
theorem C7_pagefield_and_raw_delete (page repl : Page) (db db' : Db)
    (rel : ReverseRel) :
    (∀ dbf, _fix_pagefield_references page db = .ok dbf →
      _get_replacement_page page db = .ok repl →
      (∀ pf ∈ db.pageFieldRels, pf.isExactPageField = true →
        ∀ row ∈ pf.rows,
          (row.page_ref = page.id → ∃ pf' ∈ dbf.pageFieldRels,
            { row with page_ref := repl.id } ∈ pf'.rows) ∧
          (row.page_ref ≠ page.id → ∃ pf' ∈ dbf.pageFieldRels, row ∈ pf'.rows)) ∧
      (∀ pf ∈ db.pageFieldRels, pf.isExactPageField = false → pf ∈ dbf.pageFieldRels)) ∧
    (rel.relatedIsPageUrl = true → fixRel page.id repl.id rel = rel) ∧
    (_delete_page page db = .ok db' →
      db'.pageUrls = db.pageUrls.filter (fun u => u.page_id != page.id) ∧
      (∀ u ∈ db'.pageUrls, u.page_id ≠ page.id) ∧
      (page.prot = false → ∀ q ∈ db'.pages, q.id ≠ page.id)) := by
  refine ⟨?_, ?_, ?_⟩
  · intro dbf hfix hrepl
    obtain ⟨r0, hr0, he⟩ := _fix_pagefield_references_ok_inv hfix
    rw [hrepl] at hr0
    injection hr0 with hr0
    subst hr0 he
    constructor
    · intro pf hpf hexact row hrow
      constructor
      · intro heq
        refine ⟨_, List.mem_map_of_mem _ hpf, ?_⟩
        rw [if_pos hexact]
        dsimp only
        have hrew : (if row.page_ref == page.id then { row with page_ref := repl.id }
            else row) = { row with page_ref := repl.id } := by
          rw [if_pos (by simp [heq])]
        rw [← hrew]
        exact List.mem_map_of_mem _ hrow
      · intro hneq
        refine ⟨_, List.mem_map_of_mem _ hpf, ?_⟩
        rw [if_pos hexact]
        dsimp only
        have hrew : (if row.page_ref == page.id then { row with page_ref := repl.id }
            else row) = row := by
          rw [if_neg (by simpa using hneq)]
        rw [← hrew]
        exact List.mem_map_of_mem _ hrow
    · intro pf hpf hnotexact
      have hm := List.mem_map_of_mem (fun r => if r.isExactPageField then
        { r with rows := r.rows.map (fun row =>
            if row.page_ref == page.id then { row with page_ref := repl.id } else row) }
        else r) hpf
      dsimp only at hm
      rw [if_neg (by simp [hnotexact])] at hm
      exact hm
  · intro hu
    simp [fixRel, hu]
  · intro hdel
    cases hpr : page.prot with
    | true =>
      rw [_delete_page_eq_prot db hpr] at hdel
      injection hdel with hdel
      subst hdel
      refine ⟨rfl, ?_, ?_⟩
      · intro u hu
        have := (List.mem_filter.mp hu).2
        simpa using this
      · intro hf
        simp [hpr] at hf
    | false =>
      rw [_delete_page_eq_free db hpr] at hdel
      injection hdel with hdel
      subst hdel
      refine ⟨rfl, ?_, ?_⟩
      · intro u hu
        have := (List.mem_filter.mp hu).2
        simpa using this
      · intro _ q hq
        have := (List.mem_filter.mp hq).2
        simpa using this

/-- C7 witness: the `PageUrl` reverse relation is skipped by the fixing
step, and deleting page 5 from `dbD` removes exactly its url row. -/
theorem C7_witness :
    fixRel 5 6 relUrl = relUrl ∧
    dbDdel.pageUrls = dbD.pageUrls.filter (fun u => u.page_id != 5) :=
  ⟨(C7_pagefield_and_raw_delete ⟨5, 1, false⟩ ⟨6, 1, false⟩ dbD dbDdel relUrl).2.1 rfl,
   ((C7_pagefield_and_raw_delete ⟨5, 1, false⟩ ⟨6, 1, false⟩ dbD dbDdel relUrl).2.2
     (by rfl)).1⟩

end MigrationCleanup
